import Mathlib

set_option autoImplicit false

/-!
Shallow embedding of `plugin/pkg/scheduler/factory/factory.go`: the scheduler
config factory's backoff manager, node polling/enumeration, list-watch filter
construction, informer event handlers, and the default error handler's retry
task.  Durations and instants (`time.Duration`, `time.Time`) are embedded as
integer nanoseconds; the clock is passed explicitly as a `now` argument so that
time-dependent behaviour is stated over arbitrary call times.
-/

namespace SchedulerFactory

/-! ## Data model (`api` types used by factory.go) -/

/-- Mirrors `api.NodeCondition`: a typed node condition with a status. -/
structure NodeCondition where
  type : String
  status : String
deriving DecidableEq, Repr

/-- Mirrors the constant `api.NodeReady`. -/
def NodeReady : String := "Ready"

/-- Mirrors the constant `api.ConditionTrue`. -/
def ConditionTrue : String := "True"

/-- Mirrors the part of `api.NodeSpec` read by factory.go. -/
structure NodeSpec where
  unschedulable : Bool
deriving DecidableEq, Repr

/-- Mirrors the part of `api.NodeStatus` read by factory.go. -/
structure NodeStatus where
  conditions : List NodeCondition
deriving DecidableEq, Repr

/-- Mirrors the part of `api.Node` read by factory.go. -/
structure Node where
  name : String
  spec : NodeSpec
  status : NodeStatus
deriving DecidableEq, Repr

/-- Mirrors `api.NodeList` (metadata fields kept abstract as strings). -/
structure NodeList where
  typeMeta : String
  listMeta : String
  items : List Node
deriving DecidableEq, Repr

/-- Mirrors the part of `api.PodSpec` read by factory.go: the assignment field. -/
structure PodSpec where
  host : String
deriving DecidableEq, Repr

/-- Mirrors the part of `api.Pod` read by factory.go. -/
structure Pod where
  name : String
  «namespace» : String
  spec : PodSpec
deriving DecidableEq, Repr

/-! ## Backoff manager (`backoffEntry`, `podBackoff`) -/

/-- One nanosecond-denominated second, as in Go's `time.Second`. -/
def second : Int := 1000000000

/-- Mirrors `backoffEntry`: current backoff duration and last-update instant. -/
structure backoffEntry where
  backoff : Int
  lastUpdate : Int
deriving DecidableEq, Repr

/-- Mirrors `podBackoff`.  The Go `map[string]*backoffEntry` is embedded as an
association list; the mutex only serializes access and has no sequential
semantics; the clock is passed explicitly to each operation. -/
structure podBackoff where
  perPodBackoff : List (String × backoffEntry)
  defaultDuration : Int
  maxDuration : Int
deriving DecidableEq, Repr

/-- Go map read `p.perPodBackoff[podID]`. -/
def lookupEntry : List (String × backoffEntry) → String → Option backoffEntry
  | [], _ => none
  | kv :: rest, podID => if kv.1 == podID then some kv.2 else lookupEntry rest podID

/-- Go map write through the stored pointer: every pairing of `podID` is
replaced by the updated entry. -/
def updateEntry (m : List (String × backoffEntry)) (podID : String)
    (e : backoffEntry) : List (String × backoffEntry) :=
  m.map (fun kv => if kv.1 == podID then (podID, e) else kv)

/-- Mirrors `podBackoff.getEntry`: fetches (creating at `defaultDuration` if
absent) the entry for `podID`, stamping `lastUpdate` with the clock's current
time `now`; returns the entry together with the updated state. -/
def getEntry (p : podBackoff) (podID : String) (now : Int) :
    backoffEntry × podBackoff :=
  match lookupEntry p.perPodBackoff podID with
  | some entry =>
    let e := { entry with lastUpdate := now }
    (e, { p with perPodBackoff := updateEntry p.perPodBackoff podID e })
  | none =>
    let e : backoffEntry := { backoff := p.defaultDuration, lastUpdate := now }
    (e, { p with perPodBackoff := p.perPodBackoff ++ [(podID, e)] })

/-- Mirrors `podBackoff.getBackoff`: returns the entry's current duration,
then doubles the stored duration, capping it at `maxDuration`. -/
def getBackoff (p : podBackoff) (podID : String) (now : Int) :
    Int × podBackoff :=
  let r := getEntry p podID now
  let entry := r.1
  let p1 := r.2
  let duration := entry.backoff
  let doubled := entry.backoff * 2
  let newBackoff := if doubled > p.maxDuration then p.maxDuration else doubled
  (duration,
   { p1 with perPodBackoff :=
       updateEntry p1.perPodBackoff podID { entry with backoff := newBackoff } })

/-- Mirrors `podBackoff.gc`: deletes every entry whose `lastUpdate` is more
than `maxDuration` before `now`. -/
def gc (p : podBackoff) (now : Int) : podBackoff :=
  let kept := p.perPodBackoff.filter fun kv =>
    decide (¬ (now - kv.2.lastUpdate > p.maxDuration))
  { p with perPodBackoff := kept }

/-- The `podBackoff` literal built in `ConfigFactory.CreateFromKeys`:
empty map, default 1s, maximum 60s. -/
def factoryPodBackoff : podBackoff :=
  { perPodBackoff := []
    defaultDuration := 1 * second
    maxDuration := 60 * second }

/-- N successive `getBackoff` calls for one identity at the given call times,
collecting the returned durations. -/
def getBackoffSeq (p : podBackoff) (podID : String) (times : List Int) :
    List Int × podBackoff :=
  match times with
  | [] => ([], p)
  | t :: ts =>
    let r := getBackoff p podID t
    let rest := getBackoffSeq r.2 podID ts
    (r.1 :: rest.1, rest.2)

/-- The duration `getBackoff` would return next for `podID` in state `p`. -/
def bcur (p : podBackoff) (podID : String) : Int :=
  match lookupEntry p.perPodBackoff podID with
  | some e => e.backoff
  | none => p.defaultDuration

/-- One doubling step capped at `maxD`, as performed by `getBackoff`. -/
def capDouble (maxD b : Int) : Int := if b * 2 > maxD then maxD else b * 2

/-- The list of the first `n` durations produced by starting at `b` and
repeatedly applying `capDouble maxD`. -/
def capIter (maxD b : Int) : Nat → List Int
  | 0 => []
  | n + 1 => b :: capIter maxD (capDouble maxD b) n

/-! ## Node polling and enumeration (`pollMinions`, `nodeEnumerator`) -/

/-- The per-type condition map built by `pollMinions`
(`conditionMap[cond.Type] = &cond` in list order): a later condition of the
same type overwrites an earlier one, so lookup returns the last occurrence. -/
def conditionMapLookup (conds : List NodeCondition) (t : String) :
    Option NodeCondition :=
  conds.reverse.find? (fun c => c.type == t)

/-- The per-node test applied by `pollMinions`: skip unschedulable nodes, then
keep the node only when the condition map holds a `NodeReady` condition whose
status is `ConditionTrue` (no condition at all means the node is skipped). -/
def nodeIsSchedulableReady (node : Node) : Bool :=
  if node.spec.unschedulable then false
  else
    match conditionMapLookup node.status.conditions NodeReady with
    | some condition => condition.status == ConditionTrue
    | none => false

/-- Mirrors `nodeEnumerator`: an embedded, possibly nil, `*api.NodeList`. -/
structure NodeEnumerator where
  nodeList : Option NodeList
deriving DecidableEq, Repr

/-- Mirrors `ConfigFactory.pollMinions` applied to the node list the remote
store returned: copy the list metadata and keep exactly the nodes passing
`nodeIsSchedulableReady`, in order. -/
def pollMinions (allNodes : NodeList) : NodeEnumerator :=
  { nodeList := some
      { typeMeta := allNodes.typeMeta
        listMeta := allNodes.listMeta
        items := allNodes.items.filter nodeIsSchedulableReady } }

/-- The nodes an enumerator exposes (empty for a nil list). -/
def enumeratorItems (ne : NodeEnumerator) : List Node :=
  match ne.nodeList with
  | none => []
  | some l => l.items

/-- Mirrors `nodeEnumerator.Len`. -/
def NodeEnumerator.Len (ne : NodeEnumerator) : Nat :=
  match ne.nodeList with
  | none => 0
  | some l => l.items.length

/-- Mirrors `nodeEnumerator.Get` (`&ne.Items[index]`); indexing a nil list or
out of range is a Go panic, embedded as `none`. -/
def NodeEnumerator.Get (ne : NodeEnumerator) (index : Nat) : Option Node :=
  match ne.nodeList with
  | none => none
  | some l => l.items.get? index

/-! ## List-watch sources and their field selectors -/

inductive SelectorOp where
  | eq
  | neq
deriving DecidableEq, Repr

/-- A field selector: either match-everything or one requirement on a field. -/
inductive FieldSelector where
  | everything
  | req (field : String) (op : SelectorOp) (value : String)
deriving DecidableEq, Repr

/-- Modelled from the spec: `client.PodHost`, the field-selector key naming a
pod's assignment (host) field (the `client` package is outside these sources). -/
def PodHost : String := "spec.host"

/-- Modelled from the spec: reading the one pod field the factory's selectors
address — `PodHost` is the assignment field. -/
def podFieldValue (p : Pod) (field : String) : Option String :=
  if field == PodHost then some p.spec.host else none

/-- Whether a pod satisfies a field selector. -/
def selectorMatchesPod (sel : FieldSelector) (p : Pod) : Bool :=
  match sel with
  | .everything => true
  | .req f op v =>
    match podFieldValue p f with
    | some actual =>
      match op with
      | .eq => actual == v
      | .neq => actual != v
    | none => false

/-- A list-watch source: the resource it lists/watches and its filter. -/
structure ListWatch where
  resource : String
  selector : FieldSelector
deriving DecidableEq, Repr

/-- Modelled from the spec: `fields.ParseSelector` (library code outside these
sources) on the two strings factory.go passes — `""` parses to the
match-everything selector, and `PodHost ++ "!="` to the requirement that the
assignment field be non-empty. -/
def parseSelectorOrDie (s : String) : FieldSelector :=
  if s == PodHost ++ "!=" then .req PodHost .neq ""
  else .everything

/-- Mirrors `createUnassignedPodLW`: pods with
`fields.Set{client.PodHost: ""}` — assignment field equal to the empty string. -/
def createUnassignedPodLW : ListWatch :=
  { resource := "pods", selector := .req PodHost .eq "" }

/-- Mirrors `createAssignedPodLW`: pods matching `PodHost + "!="`. -/
def createAssignedPodLW : ListWatch :=
  { resource := "pods", selector := parseSelectorOrDie (PodHost ++ "!=") }

/-- Mirrors `createMinionLW`: all nodes, unfiltered. -/
def createMinionLW : ListWatch :=
  { resource := "nodes", selector := parseSelectorOrDie "" }

/-- Mirrors `createServiceLW`: all services, unfiltered. -/
def createServiceLW : ListWatch :=
  { resource := "services", selector := parseSelectorOrDie "" }

/-! ## Scheduled-pod informer event handlers (`NewConfigFactory`) -/

/-- The payload delivered to the informer's handlers: a full pod object, or a
`cache.DeletedFinalStateUnknown` tombstone carrying only an identity key. -/
inductive InformerObject where
  | pod (p : Pod)
  | deletedFinalStateUnknown (key : String)
deriving DecidableEq, Repr

/-- A call into the factory's `SystemModeler`. -/
inductive ModelerCall where
  | forgetPod (p : Pod)
  | forgetPodByKey (key : String)
deriving DecidableEq, Repr

/-- Mirrors the `AddFunc` handler installed by `NewConfigFactory`: a payload
that type-asserts to `*api.Pod` triggers `ForgetPod`; anything else is
ignored. -/
def scheduledPodAddFunc : InformerObject → List ModelerCall
  | .pod p => [.forgetPod p]
  | .deletedFinalStateUnknown _ => []

/-- Mirrors the `DeleteFunc` handler installed by `NewConfigFactory`: a full
pod triggers `ForgetPod`; a `DeletedFinalStateUnknown` tombstone triggers
`ForgetPodByKey` with its key. -/
def scheduledPodDeleteFunc : InformerObject → List ModelerCall
  | .pod p => [.forgetPod p]
  | .deletedFinalStateUnknown k => [.forgetPodByKey k]

/-! ## Default error handler's retry task (`makeDefaultErrorFunc`) -/

/-- One observable step of the asynchronous retry goroutine. -/
inductive RetryAction where
  | wait (podID : String)
  | getPod («namespace» name : String)
  | addToQueue (pod : Pod)
deriving DecidableEq, Repr

/-- Mirrors the goroutine body of `makeDefaultErrorFunc`: wait out the pod's
backoff keyed by `pod.Name`, re-fetch the pod by namespace and name (`fetch`
embeds the remote store's `Get`, with `none` for an error), abandon the pod on
a fetch error, and add the re-fetched pod back to the queue only when its
assignment field `Spec.Host` is still empty. -/
def defaultErrorRetryTask (pod : Pod) (fetch : String → String → Option Pod) :
    List RetryAction :=
  let podID := pod.name
  let podNamespace := pod.«namespace»
  [RetryAction.wait podID, RetryAction.getPod podNamespace podID] ++
    match fetch podNamespace podID with
    | none => []
    | some newPod =>
      if newPod.spec.host == "" then [RetryAction.addToQueue newPod] else []

/-! ## Policy-based construction (`CreateFromConfig`, `CreateFromKeys`) -/

/-- Mirrors `schedulerapi.Policy` at the granularity factory.go uses: lists of
named predicate and priority specifications. -/
structure Policy where
  predicates : List String
  priorities : List String
deriving DecidableEq, Repr

/-- An externally observable side effect of pipeline construction. -/
inductive FactoryEffect where
  | registerFitPredicate (name : String)
  | registerPriorityFunction (name : String)
  | startReflector (what : String)
  | startInformer
deriving DecidableEq, Repr

/-- Mirrors `CreateFromKeys` as a result plus effect trace: resolving the
predicate or priority keys can fail, returning before anything starts; on
success the unassigned-pod reflector, the scheduled-pod informer, and the node
and service reflectors are started.  The key-resolution outcomes `getFit` and
`getPrio` are parameters because the plugin registry is outside these sources. -/
def CreateFromKeys (getFit getPrio : Except String Unit) :
    Except String Unit × List FactoryEffect :=
  match getFit with
  | .error e => (.error e, [])
  | .ok _ =>
    match getPrio with
    | .error e => (.error e, [])
    | .ok _ =>
      (.ok (),
       [FactoryEffect.startReflector "unassignedPods",
        FactoryEffect.startInformer,
        FactoryEffect.startReflector "minions",
        FactoryEffect.startReflector "services"])

/-- Mirrors `CreateFromConfig`: validate the policy first (`validate` embeds
`validation.ValidatePolicy`, which is outside these sources); a validation
error is returned immediately with no effects; otherwise every named predicate
and priority is registered and construction continues via `CreateFromKeys`. -/
def CreateFromConfig (validate : Policy → Option String)
    (getFit getPrio : Except String Unit) (policy : Policy) :
    Except String Unit × List FactoryEffect :=
  match validate policy with
  | some err => (.error err, [])
  | none =>
    let regP := policy.predicates.map FactoryEffect.registerFitPredicate
    let regQ := policy.priorities.map FactoryEffect.registerPriorityFunction
    let r := CreateFromKeys getFit getPrio
    (r.1, regP ++ regQ ++ r.2)

/-! ## Backoff-manager operation sequences -/

/-- A call against the backoff manager, with its wall-clock time. -/
inductive BackoffOp where
  | getCall (podID : String) (now : Int)
  | gcCall (now : Int)
deriving DecidableEq, Repr

/-- Execute one backoff-manager call. -/
def applyOp (p : podBackoff) : BackoffOp → podBackoff
  | .getCall podID now => (getBackoff p podID now).2
  | .gcCall now => gc p now

/-- Execute a sequence of backoff-manager calls. -/
def runOps (p : podBackoff) (ops : List BackoffOp) : podBackoff :=
  ops.foldl applyOp p

/-- A freshly constructed backoff manager: empty map. -/
def initPodBackoff (D M : Int) : podBackoff :=
  { perPodBackoff := [], defaultDuration := D, maxDuration := M }

/-- Every stored duration lies between the default and the maximum. -/
def EntriesInRange (p : podBackoff) : Prop :=
  ∀ kv ∈ p.perPodBackoff,
    p.defaultDuration ≤ kv.2.backoff ∧ kv.2.backoff ≤ p.maxDuration

/-- The map's keys are pairwise distinct (true of every reachable state). -/
def KeysNodup (p : podBackoff) : Prop :=
  (p.perPodBackoff.map Prod.fst).Nodup

/-- The identity's entry is present after every single step of `ops`. -/
def survives (p : podBackoff) (ops : List BackoffOp) (podID : String) : Prop :=
  match ops with
  | [] => True
  | op :: rest =>
    (lookupEntry (applyOp p op).perPodBackoff podID).isSome = true ∧
      survives (applyOp p op) rest podID

/-! ## Concrete sample values used by witnesses -/

/-- A ready=true node condition. -/
def readyCondition : NodeCondition := { type := NodeReady, status := ConditionTrue }

/-- A schedulable node carrying an explicit ready=true condition. -/
def readyNode : Node :=
  { name := "n1"
    spec := { unschedulable := false }
    status := { conditions := [readyCondition] } }

/-- A one-node list as returned by the remote store. -/
def sampleNodeList : NodeList :=
  { typeMeta := "", listMeta := "", items := [readyNode] }

/-- An unassigned pod. -/
def samplePod : Pod :=
  { name := "p1", «namespace» := "ns1", spec := { host := "" } }

/-! ### Basic lookup/update lemmas -/

theorem lookupEntry_append_self (m : List (String × backoffEntry))
    (podID : String) (e : backoffEntry)
    (h : lookupEntry m podID = none) :
    lookupEntry (m ++ [(podID, e)]) podID = some e := by
  induction m with
  | nil => simp [lookupEntry]
  | cons kv rest ih =>
    rw [List.cons_append]
    simp only [lookupEntry] at h ⊢
    cases hkv : (kv.1 == podID) with
    | true => simp [hkv] at h
    | false =>
      simp only [hkv, if_neg, Bool.false_eq_true, if_false] at h ⊢
      exact ih h

theorem lookupEntry_append_other (m : List (String × backoffEntry))
    (podID id2 : String) (e : backoffEntry) (h : podID ≠ id2) :
    lookupEntry (m ++ [(id2, e)]) podID = lookupEntry m podID := by
  induction m with
  | nil =>
    have hne : (id2 == podID) = false := by
      simp [Ne.symm h]
    simp [lookupEntry, hne]
  | cons kv rest ih =>
    rw [List.cons_append]
    simp only [lookupEntry]
    cases hkv : (kv.1 == podID) with
    | true => simp [hkv]
    | false => simpa [hkv] using ih

theorem lookupEntry_updateEntry_self (m : List (String × backoffEntry))
    (podID : String) (e : backoffEntry) :
    lookupEntry (updateEntry m podID e) podID =
      (lookupEntry m podID).map (fun _ => e) := by
  induction m with
  | nil => simp [lookupEntry, updateEntry]
  | cons kv rest ih =>
    simp only [updateEntry, List.map_cons] at ih ⊢
    cases hkv : (kv.1 == podID) with
    | true =>
      simp only [hkv, if_pos, lookupEntry]
      simp [hkv]
    | false =>
      simp only [lookupEntry, hkv, Bool.false_eq_true, if_false]
      exact ih

theorem lookupEntry_updateEntry_other (m : List (String × backoffEntry))
    (podID id2 : String) (e : backoffEntry) (h : podID ≠ id2) :
    lookupEntry (updateEntry m id2 e) podID = lookupEntry m podID := by
  induction m with
  | nil => simp [lookupEntry, updateEntry]
  | cons kv rest ih =>
    simp only [updateEntry, List.map_cons] at ih ⊢
    cases hkv : (kv.1 == id2) with
    | true =>
      have hkv2 : kv.1 = id2 := by simpa using hkv
      have hne : (id2 == podID) = false := by simp [Ne.symm h]
      have hne2 : (kv.1 == podID) = false := by simp [hkv2, Ne.symm h]
      simp only [hkv, if_pos, lookupEntry, hne, hne2, Bool.false_eq_true, if_false]
      exact ih
    | false =>
      simp only [hkv, Bool.false_eq_true, if_false, lookupEntry]
      cases hkv2 : (kv.1 == podID) with
      | true => rfl
      | false => simpa [hkv2] using ih

/-! ### getBackoff characterization -/

theorem getBackoff_fst (p : podBackoff) (podID : String) (now : Int) :
    (getBackoff p podID now).1 = bcur p podID := by
  unfold getBackoff getEntry bcur
  cases h : lookupEntry p.perPodBackoff podID <;> simp [h]

theorem getBackoff_lookup_self (p : podBackoff) (podID : String) (now : Int) :
    lookupEntry (getBackoff p podID now).2.perPodBackoff podID =
      some { backoff := capDouble p.maxDuration (bcur p podID)
             lastUpdate := now } := by
  unfold getBackoff getEntry bcur capDouble
  cases h : lookupEntry p.perPodBackoff podID with
  | some entry =>
    simp only [h]
    rw [lookupEntry_updateEntry_self, lookupEntry_updateEntry_self, h]
    rfl
  | none =>
    simp only [h]
    rw [lookupEntry_updateEntry_self, lookupEntry_append_self _ _ _ h]
    rfl

theorem getBackoff_maxDuration (p : podBackoff) (podID : String) (now : Int) :
    (getBackoff p podID now).2.maxDuration = p.maxDuration := by
  unfold getBackoff getEntry
  cases h : lookupEntry p.perPodBackoff podID <;> simp [h]

theorem getBackoff_defaultDuration (p : podBackoff) (podID : String) (now : Int) :
    (getBackoff p podID now).2.defaultDuration = p.defaultDuration := by
  unfold getBackoff getEntry
  cases h : lookupEntry p.perPodBackoff podID <;> simp [h]

theorem getBackoffSeq_eq_capIter (times : List Int) (p : podBackoff)
    (podID : String) :
    (getBackoffSeq p podID times).1 =
      capIter p.maxDuration (bcur p podID) times.length := by
  induction times generalizing p with
  | nil => simp [getBackoffSeq, capIter]
  | cons t ts ih =>
    simp only [getBackoffSeq, List.length_cons, capIter]
    refine congrArg₂ List.cons (getBackoff_fst p podID t) ?_
    rw [ih]
    have hb : bcur (getBackoff p podID t).2 podID =
        capDouble p.maxDuration (bcur p podID) := by
      unfold bcur
      rw [getBackoff_lookup_self]
      exact rfl
    rw [hb, getBackoff_maxDuration]

/-! ### The capped-doubling closed formula -/

theorem capDouble_min (D M : Int) (hDM : D ≤ M) (k : Nat) :
    capDouble M (min (2 ^ k * D) M) = min (2 ^ (k + 1) * D) M := by
  have hpow : (0:Int) < 2 ^ k := pow_pos (by norm_num) k
  have h2 : (2:Int) ^ (k + 1) * D = (2 ^ k * D) * 2 := by ring
  rcases le_or_lt (2 ^ k * D) M with hle | hgt
  · rw [min_eq_left hle]
    unfold capDouble
    by_cases hc : (2 ^ k * D) * 2 > M
    · rw [if_pos hc, h2, min_eq_right hc.le]
    · rw [if_neg hc, h2, min_eq_left (not_lt.mp hc)]
  · rw [min_eq_right hgt.le]
    have hDpos : 0 < D := by
      by_contra hD
      push_neg at hD
      have h1 : (1:Int) ≤ 2 ^ k := by omega
      have : 2 ^ k * D ≤ 1 * D := mul_le_mul_of_nonpos_right h1 hD
      rw [one_mul] at this
      exact absurd (lt_of_le_of_lt (this.trans hDM) hgt) (lt_irrefl _)
    have hMpos : 0 < M := lt_of_lt_of_le hDpos hDM
    have hxx : 2 ^ k * D ≤ 2 ^ (k + 1) * D := by nlinarith
    have hx : M < 2 ^ (k + 1) * D := lt_of_lt_of_le hgt hxx
    unfold capDouble
    rw [if_pos (by linarith : M * 2 > M), min_eq_right hx.le]

theorem capIter_min_formula (D M : Int) (N : Nat) :
    ∀ k : Nat, D ≤ M →
      capIter M (min (2 ^ k * D) M) N =
        (List.range N).map (fun n => min (2 ^ (n + k) * D) M) := by
  induction N with
  | zero => intro k _; simp [capIter]
  | succ n ih =>
    intro k hDM
    rw [List.range_succ_eq_map]
    simp only [capIter, List.map_cons, List.map_map]
    refine congrArg₂ List.cons (by rw [Nat.zero_add]) ?_
    rw [capDouble_min D M hDM k, ih (k + 1) hDM]
    refine List.map_congr_left ?_
    intro a _
    simp only [Function.comp]
    have : a + (k + 1) = Nat.succ a + k := by omega
    rw [this]

/-- **C1.** For a fresh identity, N successive `getBackoff` calls (at arbitrary
wall-clock times: the result depends only on how many calls are made, not on
the elapsed time) return the durations `min (2^(n) * D) M` for `n = 0 .. N-1`,
i.e. `D, 2D, 4D, ..., min (2^(N-1) D) M`, where `D` is the default duration and
`M` the maximum. -/
theorem getBackoff_succession (p : podBackoff) (podID : String) (times : List Int)
    (hfresh : lookupEntry p.perPodBackoff podID = none)
    (hDM : p.defaultDuration ≤ p.maxDuration) :
    (getBackoffSeq p podID times).1 =
      (List.range times.length).map
        (fun n => min (2 ^ n * p.defaultDuration) p.maxDuration) := by
  rw [getBackoffSeq_eq_capIter]
  have hb : bcur p podID = p.defaultDuration := by
    unfold bcur
    rw [hfresh]
  rw [hb]
  have h0 := capIter_min_formula p.defaultDuration p.maxDuration times.length 0 hDM
  rw [pow_zero, one_mul, min_eq_left hDM] at h0
  rw [h0]
  simp

/-- Witness for C1 at the factory's configuration (D = 1s, M = 60s):
eight immediate calls return 1s, 2s, 4s, 8s, 16s, 32s, 60s, 60s. -/
theorem getBackoff_succession_witness :
    lookupEntry factoryPodBackoff.perPodBackoff "mypod" = none ∧
    factoryPodBackoff.defaultDuration ≤ factoryPodBackoff.maxDuration ∧
    (getBackoffSeq factoryPodBackoff "mypod" [0, 0, 0, 0, 0, 0, 0, 0]).1 =
      [1 * second, 2 * second, 4 * second, 8 * second,
       16 * second, 32 * second, 60 * second, 60 * second] := by
  refine ⟨rfl, by decide, ?_⟩
  rw [getBackoff_succession factoryPodBackoff "mypod" [0, 0, 0, 0, 0, 0, 0, 0]
    rfl (by decide)]
  decide

/-- **C4.** `gc` at time `now` keeps exactly the entries whose `lastUpdate` is
within `maxDuration` of `now` (inclusive); every strictly older entry is
removed. -/
theorem gc_removes_exactly_stale (p : podBackoff) (now : Int) (podID : String)
    (e : backoffEntry) :
    (podID, e) ∈ (gc p now).perPodBackoff ↔
      (podID, e) ∈ p.perPodBackoff ∧ now - e.lastUpdate ≤ p.maxDuration := by
  simp [gc, List.mem_filter, not_lt]

/-! ### gc interaction lemmas -/

theorem gc_perPodBackoff (p : podBackoff) (now : Int) :
    (gc p now).perPodBackoff =
      p.perPodBackoff.filter fun kv =>
        decide (¬ (now - kv.2.lastUpdate > p.maxDuration)) := rfl

theorem gc_maxDuration (p : podBackoff) (now : Int) :
    (gc p now).maxDuration = p.maxDuration := rfl

theorem gc_defaultDuration (p : podBackoff) (now : Int) :
    (gc p now).defaultDuration = p.defaultDuration := rfl

theorem lookupEntry_filter_of_kept (m : List (String × backoffEntry))
    (podID : String) (e : backoffEntry) (q : String × backoffEntry → Bool)
    (h : lookupEntry m podID = some e) (hq : q (podID, e) = true) :
    lookupEntry (m.filter q) podID = some e := by
  induction m with
  | nil => simp [lookupEntry] at h
  | cons kv rest ih =>
    simp only [lookupEntry] at h
    cases hkv : (kv.1 == podID) with
    | true =>
      have hk : kv.1 = podID := by simpa using hkv
      have he : kv.2 = e := by simpa [hkv] using h
      have hkv2 : kv = (podID, e) := by
        cases kv
        simp_all
      rw [List.filter_cons_of_pos (by rw [hkv2]; exact hq)]
      simp [lookupEntry, hkv]
      simpa [hkv] using h
    | false =>
      by_cases hqkv : q kv = true
      · rw [List.filter_cons_of_pos hqkv]
        simp only [lookupEntry, hkv, Bool.false_eq_true, if_false]
        exact ih (by simpa [hkv] using h)
      · rw [List.filter_cons_of_neg (by simpa using hqkv)]
        exact ih (by simpa [hkv] using h)

/-- **C9.** Every `getBackoff` call (through `getEntry`) stamps the identity's
entry with the call time `now`, for existing entries as well as fresh ones;
consequently a `gc` run at any time `t` with `now ≤ t ≤ now + maxDuration`
(the call time itself included) does not remove that identity's entry. -/
theorem getBackoff_refreshes_lastUpdate (p : podBackoff) (podID : String)
    (now t : Int) (h1 : now ≤ t) (h2 : t ≤ now + p.maxDuration) :
    (∃ e, lookupEntry (getBackoff p podID now).2.perPodBackoff podID = some e ∧
        e.lastUpdate = now) ∧
    (lookupEntry (gc (getBackoff p podID now).2 t).perPodBackoff podID).isSome
    = true := by
  have hl := getBackoff_lookup_self p podID now
  refine ⟨⟨_, hl, rfl⟩, ?_⟩
  rw [gc_perPodBackoff]
  simp only [getBackoff_maxDuration]
  rw [lookupEntry_filter_of_kept _ _ _ _ hl (by
    simp only [decide_eq_true_eq]
    intro hcon
    omega)]
  rfl

/-- Witness for C9: at the factory configuration, a `getBackoff` at time 0
followed by a `gc` at time 60s (exactly `maxDuration` later) keeps the entry. -/
theorem getBackoff_refreshes_lastUpdate_witness :
    (0:Int) ≤ 60 * second ∧
    60 * second ≤ 0 + factoryPodBackoff.maxDuration ∧
    ((∃ e, lookupEntry
        (getBackoff factoryPodBackoff "mypod" 0).2.perPodBackoff "mypod"
        = some e ∧ e.lastUpdate = 0) ∧
     (lookupEntry
        (gc (getBackoff factoryPodBackoff "mypod" 0).2
          (60 * second)).perPodBackoff "mypod").isSome = true) :=
  ⟨by decide, by decide,
   getBackoff_refreshes_lastUpdate factoryPodBackoff "mypod" 0 (60 * second)
     (by decide) (by decide)⟩

/-! ### Node polling theorems -/

theorem nodeIsSchedulableReady_iff (node : Node)
    (huniq : ∀ c1 ∈ node.status.conditions, ∀ c2 ∈ node.status.conditions,
      c1.type = NodeReady → c2.type = NodeReady → c1 = c2) :
    nodeIsSchedulableReady node = true ↔
      node.spec.unschedulable = false ∧
        ∃ c ∈ node.status.conditions,
          c.type = NodeReady ∧ c.status = ConditionTrue := by
  unfold nodeIsSchedulableReady conditionMapLookup
  cases hu : node.spec.unschedulable with
  | true => simp [hu]
  | false =>
    simp only [hu, Bool.false_eq_true, if_false, true_and]
    cases hfind : node.status.conditions.reverse.find?
        (fun c => c.type == NodeReady) with
    | some c =>
      have hcp := List.find?_some hfind
      have hc_type : c.type = NodeReady := by simpa using hcp
      have hc_mem : c ∈ node.status.conditions := by
        have hm := List.mem_of_find?_eq_some hfind
        simpa using hm
      constructor
      · intro hst
        exact ⟨c, hc_mem, hc_type, by simpa using hst⟩
      · rintro ⟨c2, hc2mem, hc2type, hc2st⟩
        have hceq : c = c2 := huniq c hc_mem c2 hc2mem hc_type hc2type
        simp [hceq, hc2st]
    | none =>
      constructor
      · intro hst
        exact absurd hst (by simp)
      · rintro ⟨c2, hc2mem, hc2type, -⟩
        have hn := List.find?_eq_none.mp hfind c2 (List.mem_reverse.mpr hc2mem)
        simp [hc2type] at hn

/-- **C2.** `pollMinions` yields exactly the listed nodes that are not marked
unschedulable and carry an explicit `NodeReady` condition with status true
(a node with no ready condition, or whose ready condition is not true, is
excluded; an unschedulable node is excluded regardless of conditions), stated
for nodes whose `NodeReady` condition is unique, as condition types are. -/
theorem pollMinions_enumerates_ready_schedulable (allNodes : NodeList)
    (node : Node)
    (huniq : ∀ c1 ∈ node.status.conditions, ∀ c2 ∈ node.status.conditions,
      c1.type = NodeReady → c2.type = NodeReady → c1 = c2) :
    node ∈ enumeratorItems (pollMinions allNodes) ↔
      node ∈ allNodes.items ∧ node.spec.unschedulable = false ∧
        ∃ c ∈ node.status.conditions,
          c.type = NodeReady ∧ c.status = ConditionTrue := by
  have h := nodeIsSchedulableReady_iff node huniq
  simp only [pollMinions, enumeratorItems]
  rw [List.mem_filter, h]

/-- Witness for C2: a schedulable node with an explicit ready=true condition
is enumerated from a one-node list. -/
theorem pollMinions_enumerates_witness :
    (∀ c1 ∈ readyNode.status.conditions, ∀ c2 ∈ readyNode.status.conditions,
      c1.type = NodeReady → c2.type = NodeReady → c1 = c2) ∧
    (readyNode ∈ enumeratorItems (pollMinions sampleNodeList) ↔
      readyNode ∈ sampleNodeList.items ∧
        readyNode.spec.unschedulable = false ∧
        ∃ c ∈ readyNode.status.conditions,
          c.type = NodeReady ∧ c.status = ConditionTrue) :=
  ⟨by decide,
   pollMinions_enumerates_ready_schedulable sampleNodeList readyNode (by decide)⟩

/-- **C10.** `Len` is total: it returns 0 on a nil node list and the number of
items otherwise, and for every index `i < Len`, `Get i` returns (a pointer to)
the i-th node of the list. -/
theorem nodeEnumerator_len_get (ne : NodeEnumerator) :
    (ne.nodeList = none → ne.Len = 0) ∧
    (∀ l, ne.nodeList = some l → ne.Len = l.items.length) ∧
    (∀ i, i < ne.Len → ∃ n, ne.Get i = some n ∧
      ∀ l, ne.nodeList = some l → l.items.get? i = some n) := by
  refine ⟨?_, ?_, ?_⟩
  · intro h
    simp [NodeEnumerator.Len, h]
  · intro l h
    simp [NodeEnumerator.Len, h]
  · intro i hi
    cases hnl : ne.nodeList with
    | none => simp [NodeEnumerator.Len, hnl] at hi
    | some l =>
      have hlen : i < l.items.length := by
        simpa [NodeEnumerator.Len, hnl] using hi
      refine ⟨l.items.get ⟨i, hlen⟩, ?_, ?_⟩
      · simp [NodeEnumerator.Get, hnl, List.get?_eq_get hlen]
      · intro l2 h2
        have h3 : l = l2 := by injection h2
        subst h3
        exact List.get?_eq_get hlen

/-- Witness for C10: index 0 of a one-node enumerator. -/
theorem nodeEnumerator_len_get_witness :
    ∃ n, (NodeEnumerator.mk (some sampleNodeList)).Get 0 = some n ∧
      ∀ l, (NodeEnumerator.mk (some sampleNodeList)).nodeList = some l →
        l.items.get? 0 = some n :=
  (nodeEnumerator_len_get (NodeEnumerator.mk (some sampleNodeList))).2.2 0
    (by decide)

/-! ### Error-handler retry task theorems -/

/-- **C3.** The retry task first waits out the pod's backoff and re-fetches
the pod by namespace and name; a pod is added back to the work queue iff the
re-fetch succeeded and the re-fetched pod's assignment field is still empty;
when the re-fetch fails the pod is abandoned (the task performs no add). -/
theorem defaultErrorRetryTask_requeues_iff (pod : Pod)
    (fetch : String → String → Option Pod) :
    (defaultErrorRetryTask pod fetch).take 2 =
      [RetryAction.wait pod.name,
       RetryAction.getPod pod.«namespace» pod.name] ∧
    (∀ q : Pod, RetryAction.addToQueue q ∈ defaultErrorRetryTask pod fetch ↔
      fetch pod.«namespace» pod.name = some q ∧ q.spec.host = "") ∧
    (fetch pod.«namespace» pod.name = none →
      defaultErrorRetryTask pod fetch =
        [RetryAction.wait pod.name,
         RetryAction.getPod pod.«namespace» pod.name]) := by
  have htake : ∀ ms : List RetryAction,
      ([RetryAction.wait pod.name,
        RetryAction.getPod pod.«namespace» pod.name] ++ ms).take 2 =
      [RetryAction.wait pod.name,
       RetryAction.getPod pod.«namespace» pod.name] := fun ms => rfl
  refine ⟨?_, ?_, ?_⟩
  · simp only [defaultErrorRetryTask]
    exact htake _
  · intro q
    cases hf : fetch pod.«namespace» pod.name with
    | none =>
      simp [defaultErrorRetryTask, hf]
    | some newPod =>
      cases hh : (newPod.spec.host == "") with
      | true =>
        have hh2 : newPod.spec.host = "" := by simpa using hh
        rw [show defaultErrorRetryTask pod fetch =
            [RetryAction.wait pod.name,
             RetryAction.getPod pod.«namespace» pod.name,
             RetryAction.addToQueue newPod] from by
          simp [defaultErrorRetryTask, hf, hh]]
        constructor
        · intro hmem
          have hq : q = newPod := by simpa using hmem
          subst hq
          exact ⟨rfl, hh2⟩
        · rintro ⟨hq, -⟩
          have hq2 : newPod = q := by injection hq
          subst hq2
          simp
      | false =>
        rw [show defaultErrorRetryTask pod fetch =
            [RetryAction.wait pod.name,
             RetryAction.getPod pod.«namespace» pod.name] from by
          simp [defaultErrorRetryTask, hf, hh]]
        constructor
        · intro hmem
          exact absurd hmem (by simp)
        · rintro ⟨hq, hq2⟩
          have hq3 : newPod = q := by injection hq
          subst hq3
          exact absurd hq2 (by simpa using hh)
  · intro hf
    simp [defaultErrorRetryTask, hf]

/-- Witness for C3: a failed re-fetch abandons the pod — the task is only the
wait and the fetch. -/
theorem defaultErrorRetryTask_witness :
    defaultErrorRetryTask samplePod (fun _ _ => none) =
      [RetryAction.wait samplePod.name,
       RetryAction.getPod samplePod.«namespace» samplePod.name] :=
  (defaultErrorRetryTask_requeues_iff samplePod (fun _ _ => none)).2.2 rfl

/-! ### Informer handler theorems -/

/-- **C5.** The assigned-pod informer's add handler forgets the added pod, and
its delete handler forgets the pod when the event carries a full pod object
and forgets by key when it carries only a bare-identity tombstone. -/
theorem scheduledPodInformer_forgets (p : Pod) (k : String) :
    scheduledPodAddFunc (InformerObject.pod p) = [ModelerCall.forgetPod p] ∧
    scheduledPodDeleteFunc (InformerObject.pod p) = [ModelerCall.forgetPod p] ∧
    scheduledPodDeleteFunc (InformerObject.deletedFinalStateUnknown k) =
      [ModelerCall.forgetPodByKey k] :=
  ⟨rfl, rfl, rfl⟩

/-! ### Policy construction theorems -/

/-- **C6.** When policy validation fails, `CreateFromConfig` returns that
error and nothing else happens: no predicate or priority is registered and no
reflector or informer is started — the effect trace is empty. -/
theorem createFromConfig_validation_error (validate : Policy → Option String)
    (getFit getPrio : Except String Unit) (policy : Policy) (err : String)
    (hval : validate policy = some err) :
    CreateFromConfig validate getFit getPrio policy =
      (Except.error err, []) := by
  unfold CreateFromConfig
  rw [hval]

/-- Witness for C6 with a concrete always-failing validator. -/
theorem createFromConfig_validation_error_witness :
    (fun _ : Policy => some "invalid policy")
        { predicates := ["p"], priorities := [] } = some "invalid policy" ∧
    CreateFromConfig (fun _ => some "invalid policy") (.ok ()) (.ok ())
        { predicates := ["p"], priorities := [] } =
      (Except.error "invalid policy", []) :=
  ⟨rfl, createFromConfig_validation_error _ _ _ _ _ rfl⟩

/-! ### List-watch filter theorems -/

/-- **C7.** The unscheduled-pod list-watch selects exactly the pods whose
assignment field is empty; the assigned-pod list-watch selects exactly the
pods whose assignment field is non-empty; the node and service list-watches
are unfiltered, matching every pod-field assignment. -/
theorem listWatch_filters :
    (∀ p : Pod, selectorMatchesPod createUnassignedPodLW.selector p = true ↔
        p.spec.host = "") ∧
    (∀ p : Pod, selectorMatchesPod createAssignedPodLW.selector p = true ↔
        p.spec.host ≠ "") ∧
    createMinionLW.selector = FieldSelector.everything ∧
    createServiceLW.selector = FieldSelector.everything := by
  refine ⟨?_, ?_, rfl, rfl⟩
  · intro p
    simp [createUnassignedPodLW, selectorMatchesPod, podFieldValue]
  · intro p
    simp [createAssignedPodLW, parseSelectorOrDie, selectorMatchesPod,
      podFieldValue]

/-- Witness for C7 at a concrete unassigned pod. -/
theorem listWatch_filters_witness :
    selectorMatchesPod createUnassignedPodLW.selector samplePod = true ∧
    selectorMatchesPod createAssignedPodLW.selector samplePod = false :=
  ⟨(listWatch_filters.1 samplePod).mpr rfl, by decide⟩

/-! ### Backoff-state invariants and monotonicity (C8) -/

theorem getBackoff_perPodBackoff (p : podBackoff) (podID : String) (now : Int) :
    (getBackoff p podID now).2.perPodBackoff =
      match lookupEntry p.perPodBackoff podID with
      | some entry =>
        updateEntry (updateEntry p.perPodBackoff podID
            { entry with lastUpdate := now }) podID
          { backoff := capDouble p.maxDuration entry.backoff, lastUpdate := now }
      | none =>
        updateEntry (p.perPodBackoff ++
            [(podID, { backoff := p.defaultDuration, lastUpdate := now })]) podID
          { backoff := capDouble p.maxDuration p.defaultDuration,
            lastUpdate := now } := by
  unfold getBackoff getEntry capDouble
  cases h : lookupEntry p.perPodBackoff podID <;> simp [h]

theorem getBackoff_lookup_other (p : podBackoff) (podID id2 : String)
    (now : Int) (h : podID ≠ id2) :
    lookupEntry (getBackoff p id2 now).2.perPodBackoff podID =
      lookupEntry p.perPodBackoff podID := by
  rw [getBackoff_perPodBackoff]
  cases hl : lookupEntry p.perPodBackoff id2 with
  | some entry =>
    rw [lookupEntry_updateEntry_other _ _ _ _ h,
      lookupEntry_updateEntry_other _ _ _ _ h]
  | none =>
    rw [lookupEntry_updateEntry_other _ _ _ _ h,
      lookupEntry_append_other _ _ _ _ h]

theorem applyOp_defaultDuration (p : podBackoff) (op : BackoffOp) :
    (applyOp p op).defaultDuration = p.defaultDuration := by
  cases op with
  | getCall podID now => exact getBackoff_defaultDuration p podID now
  | gcCall now => rfl

theorem applyOp_maxDuration (p : podBackoff) (op : BackoffOp) :
    (applyOp p op).maxDuration = p.maxDuration := by
  cases op with
  | getCall podID now => exact getBackoff_maxDuration p podID now
  | gcCall now => rfl

theorem runOps_cons (p : podBackoff) (op : BackoffOp) (ops : List BackoffOp) :
    runOps p (op :: ops) = runOps (applyOp p op) ops := rfl

theorem mem_updateEntry (m : List (String × backoffEntry)) (podID : String)
    (e : backoffEntry) (kv : String × backoffEntry)
    (h : kv ∈ updateEntry m podID e) : kv ∈ m ∨ kv = (podID, e) := by
  unfold updateEntry at h
  rcases List.mem_map.mp h with ⟨kv0, hkv0, heq⟩
  cases hb : (kv0.1 == podID) with
  | true =>
    right
    rw [← heq]
    simp [hb]
  | false =>
    left
    rw [← heq]
    simpa [hb] using hkv0

theorem mem_of_lookupEntry (m : List (String × backoffEntry)) (podID : String)
    (e : backoffEntry) (h : lookupEntry m podID = some e) : (podID, e) ∈ m := by
  induction m with
  | nil => simp [lookupEntry] at h
  | cons kv rest ih =>
    simp only [lookupEntry] at h
    cases hb : (kv.1 == podID) with
    | true =>
      have h1 : kv.1 = podID := by simpa using hb
      have h2 : kv.2 = e := by simpa [hb] using h
      have h3 : kv = (podID, e) := by
        cases kv
        simp_all
      rw [← h3]
      exact List.mem_cons_self _ _
    | false =>
      exact List.mem_cons_of_mem _ (ih (by simpa [hb] using h))

theorem le_capDouble (M b : Int) (hb0 : 0 ≤ b) (hbM : b ≤ M) :
    b ≤ capDouble M b := by
  unfold capDouble
  by_cases hc : b * 2 > M
  · rw [if_pos hc]
    exact hbM
  · rw [if_neg hc]
    linarith

theorem capDouble_bounds (D M b : Int) (h0 : 0 ≤ D) (hDM : D ≤ M)
    (hb1 : D ≤ b) (hb2 : b ≤ M) :
    D ≤ capDouble M b ∧ capDouble M b ≤ M := by
  unfold capDouble
  by_cases hc : b * 2 > M
  · rw [if_pos hc]
    exact ⟨hDM, le_refl M⟩
  · rw [if_neg hc]
    constructor
    · linarith
    · linarith [not_lt.mp hc]

theorem entriesInRange_getBackoff (p : podBackoff) (podID : String) (now : Int)
    (h0 : 0 ≤ p.defaultDuration) (hDM : p.defaultDuration ≤ p.maxDuration)
    (hInv : EntriesInRange p) : EntriesInRange (getBackoff p podID now).2 := by
  intro kv hkv
  rw [getBackoff_defaultDuration, getBackoff_maxDuration]
  rw [getBackoff_perPodBackoff] at hkv
  cases hl : lookupEntry p.perPodBackoff podID with
  | some entry =>
    rw [hl] at hkv
    have hent := hInv _ (mem_of_lookupEntry _ _ _ hl)
    rcases mem_updateEntry _ _ _ _ hkv with hkv1 | hkv1
    · rcases mem_updateEntry _ _ _ _ hkv1 with hkv2 | hkv2
      · exact hInv _ hkv2
      · rw [hkv2]
        exact hent
    · rw [hkv1]
      exact capDouble_bounds _ _ _ h0 hDM hent.1 hent.2
  | none =>
    rw [hl] at hkv
    rcases mem_updateEntry _ _ _ _ hkv with hkv1 | hkv1
    · rcases List.mem_append.mp hkv1 with hkv2 | hkv2
      · exact hInv _ hkv2
      · have : kv = (podID,
            { backoff := p.defaultDuration, lastUpdate := now }) := by
          simpa using hkv2
        rw [this]
        exact ⟨le_refl _, hDM⟩
    · rw [hkv1]
      exact capDouble_bounds _ _ _ h0 hDM (le_refl _) hDM

theorem entriesInRange_gc (p : podBackoff) (now : Int)
    (hInv : EntriesInRange p) : EntriesInRange (gc p now) := by
  intro kv hkv
  rw [gc_defaultDuration, gc_maxDuration]
  rw [gc_perPodBackoff] at hkv
  exact hInv _ (List.mem_filter.mp hkv).1

theorem entriesInRange_applyOp (p : podBackoff) (op : BackoffOp)
    (h0 : 0 ≤ p.defaultDuration) (hDM : p.defaultDuration ≤ p.maxDuration)
    (hInv : EntriesInRange p) : EntriesInRange (applyOp p op) := by
  cases op with
  | getCall podID now => exact entriesInRange_getBackoff p podID now h0 hDM hInv
  | gcCall now => exact entriesInRange_gc p now hInv

theorem entriesInRange_runOps (ops : List BackoffOp) (p : podBackoff)
    (h0 : 0 ≤ p.defaultDuration) (hDM : p.defaultDuration ≤ p.maxDuration)
    (hInv : EntriesInRange p) : EntriesInRange (runOps p ops) := by
  induction ops generalizing p with
  | nil => exact hInv
  | cons op rest ih =>
    rw [runOps_cons]
    exact ih (applyOp p op)
      (by rw [applyOp_defaultDuration]; exact h0)
      (by rw [applyOp_defaultDuration, applyOp_maxDuration]; exact hDM)
      (entriesInRange_applyOp p op h0 hDM hInv)

theorem keys_updateEntry (m : List (String × backoffEntry)) (podID : String)
    (e : backoffEntry) :
    (updateEntry m podID e).map Prod.fst = m.map Prod.fst := by
  induction m with
  | nil => rfl
  | cons kv rest ih =>
    simp only [updateEntry, List.map_cons] at ih ⊢
    cases hb : (kv.1 == podID) with
    | true =>
      have h1 : kv.1 = podID := by simpa using hb
      simp [hb, h1, ih]
      intro a b _
      by_cases ha : a = podID <;> simp [ha]
    | false =>
      simp [hb, ih]
      intro a b _
      by_cases ha : a = podID <;> simp [ha]

theorem not_mem_keys_of_lookupEntry_none (m : List (String × backoffEntry))
    (podID : String) (h : lookupEntry m podID = none) :
    podID ∉ m.map Prod.fst := by
  induction m with
  | nil => simp
  | cons kv rest ih =>
    simp only [lookupEntry] at h
    cases hb : (kv.1 == podID) with
    | true => simp [hb] at h
    | false =>
      simp only [List.map_cons, List.mem_cons]
      rintro (h1 | h2)
      · have : kv.1 ≠ podID := by simpa using hb
        exact this h1.symm
      · exact ih (by simpa [hb] using h) h2

theorem keysNodup_getBackoff (p : podBackoff) (podID : String) (now : Int)
    (h : KeysNodup p) : KeysNodup (getBackoff p podID now).2 := by
  unfold KeysNodup at h ⊢
  rw [getBackoff_perPodBackoff]
  cases hl : lookupEntry p.perPodBackoff podID with
  | some entry =>
    rw [keys_updateEntry, keys_updateEntry]
    exact h
  | none =>
    rw [keys_updateEntry, List.map_append]
    refine List.Nodup.append h (List.nodup_singleton _) ?_
    intro a ha hb
    have ha2 : a = podID := by simpa using hb
    subst ha2
    exact not_mem_keys_of_lookupEntry_none _ _ hl ha

theorem keysNodup_gc (p : podBackoff) (now : Int) (h : KeysNodup p) :
    KeysNodup (gc p now) := by
  unfold KeysNodup at h ⊢
  rw [gc_perPodBackoff]
  exact ((List.filter_sublist _).map Prod.fst).nodup h

theorem keysNodup_applyOp (p : podBackoff) (op : BackoffOp) (h : KeysNodup p) :
    KeysNodup (applyOp p op) := by
  cases op with
  | getCall podID now => exact keysNodup_getBackoff p podID now h
  | gcCall now => exact keysNodup_gc p now h

theorem keysNodup_runOps (ops : List BackoffOp) (p : podBackoff)
    (h : KeysNodup p) : KeysNodup (runOps p ops) := by
  induction ops generalizing p with
  | nil => exact h
  | cons op rest ih =>
    rw [runOps_cons]
    exact ih _ (keysNodup_applyOp p op h)

theorem entry_unique_of_keysNodup (m : List (String × backoffEntry))
    (hnd : (m.map Prod.fst).Nodup) (podID : String) (a b : backoffEntry)
    (ha : (podID, a) ∈ m) (hb : (podID, b) ∈ m) : a = b := by
  induction m with
  | nil => simp at ha
  | cons kv rest ih =>
    simp only [List.map_cons, List.nodup_cons] at hnd
    rcases List.mem_cons.mp ha with ha1 | ha2 <;>
      rcases List.mem_cons.mp hb with hb1 | hb2
    · have h3 : (podID, a) = (podID, b) := ha1.trans hb1.symm
      injection h3 with h4 h5
    · exfalso
      have hk : kv.1 = podID := by rw [← ha1]
      apply hnd.1
      rw [hk]
      exact List.mem_map_of_mem Prod.fst hb2
    · exfalso
      have hk : kv.1 = podID := by rw [← hb1]
      apply hnd.1
      rw [hk]
      exact List.mem_map_of_mem Prod.fst ha2
    · exact ih hnd.2 ha2 hb2

theorem backoff_mono_applyOp (p : podBackoff) (op : BackoffOp) (podID : String)
    (e e2 : backoffEntry) (hnd : KeysNodup p) (hInv : EntriesInRange p)
    (h0 : 0 ≤ p.defaultDuration)
    (he : lookupEntry p.perPodBackoff podID = some e)
    (he2 : lookupEntry (applyOp p op).perPodBackoff podID = some e2) :
    e.backoff ≤ e2.backoff := by
  cases op with
  | getCall id2 now =>
    by_cases hid : podID = id2
    · subst hid
      simp only [applyOp] at he2
      rw [getBackoff_lookup_self] at he2
      have hbc : bcur p podID = e.backoff := by
        unfold bcur
        rw [he]
      have hbd := hInv _ (mem_of_lookupEntry _ _ _ he)
      have he2b : e2.backoff = capDouble p.maxDuration e.backoff := by
        have h3 := (Option.some.injEq _ _).mp he2
        rw [← h3, hbc]
      rw [he2b]
      exact le_capDouble _ _ (le_trans h0 hbd.1) hbd.2
    · simp only [applyOp] at he2
      rw [getBackoff_lookup_other _ _ _ _ hid, he] at he2
      have h3 : e = e2 := (Option.some.injEq _ _).mp he2
      rw [h3]
  | gcCall now =>
    simp only [applyOp] at he2
    have hm2 := mem_of_lookupEntry _ _ _ he2
    rw [gc_perPodBackoff] at hm2
    have hm2b : (podID, e2) ∈ p.perPodBackoff := (List.mem_filter.mp hm2).1
    have hm1 : (podID, e) ∈ p.perPodBackoff := mem_of_lookupEntry _ _ _ he
    rw [entry_unique_of_keysNodup _ hnd _ _ _ hm1 hm2b]

theorem backoff_mono_runOps (mid : List BackoffOp) (p : podBackoff)
    (podID : String) (e : backoffEntry) (hnd : KeysNodup p)
    (hInv : EntriesInRange p) (h0 : 0 ≤ p.defaultDuration)
    (hDM : p.defaultDuration ≤ p.maxDuration)
    (he : lookupEntry p.perPodBackoff podID = some e)
    (hs : survives p mid podID) :
    ∃ e2, lookupEntry (runOps p mid).perPodBackoff podID = some e2 ∧
      e.backoff ≤ e2.backoff := by
  induction mid generalizing p e with
  | nil => exact ⟨e, he, le_refl _⟩
  | cons op rest ih =>
    obtain ⟨hs1, hs2⟩ := hs
    obtain ⟨e1, he1⟩ := Option.isSome_iff_exists.mp hs1
    have hstep := backoff_mono_applyOp p op podID e e1 hnd hInv h0 he he1
    obtain ⟨e2, he2, hle⟩ := ih (applyOp p op) e1
      (keysNodup_applyOp p op hnd)
      (entriesInRange_applyOp p op h0 hDM hInv)
      (by rw [applyOp_defaultDuration]; exact h0)
      (by rw [applyOp_defaultDuration, applyOp_maxDuration]; exact hDM)
      he1 hs2
    exact ⟨e2, by rw [runOps_cons]; exact he2, le_trans hstep hle⟩

theorem runOps_defaultDuration (ops : List BackoffOp) (p : podBackoff) :
    (runOps p ops).defaultDuration = p.defaultDuration := by
  induction ops generalizing p with
  | nil => rfl
  | cons op rest ih => rw [runOps_cons, ih, applyOp_defaultDuration]

theorem runOps_maxDuration (ops : List BackoffOp) (p : podBackoff) :
    (runOps p ops).maxDuration = p.maxDuration := by
  induction ops generalizing p with
  | nil => rfl
  | cons op rest ih => rw [runOps_cons, ih, applyOp_maxDuration]

/-- **C8 counterexample.** The claim as stated is false on the code.
(a) Monotonicity fails across a gc purge: with the factory configuration
(default 1s ≤ maximum 60s) two `getBackoff` calls return 1s then 2s, a `gc`
61s later deletes the now-idle entry, and the next `getBackoff` call returns
1s again — the durations returned for the same identity decreased.
(b) The range invariant fails for a negative default duration satisfying
`defaultDuration ≤ maxDuration`: with default -4s and maximum 60s, after two
calls the stored duration -16s is below the default. -/
theorem backoff_invariant_counterexample :
    ((getBackoff ((getBackoff factoryPodBackoff "a" 0).2) "a" 0).1 =
        2 * second ∧
      (getBackoff
          (gc ((getBackoff ((getBackoff factoryPodBackoff "a" 0).2) "a" 0).2)
            (61 * second)) "a" (61 * second)).1 = 1 * second ∧
      (1 * second : Int) < 2 * second) ∧
    ((initPodBackoff (-4 * second) (60 * second)).defaultDuration ≤
        (initPodBackoff (-4 * second) (60 * second)).maxDuration ∧
      ∃ kv ∈ (runOps (initPodBackoff (-4 * second) (60 * second))
          [BackoffOp.getCall "a" 0, BackoffOp.getCall "a" 0]).perPodBackoff,
        kv.2.backoff <
          (runOps (initPodBackoff (-4 * second) (60 * second))
            [BackoffOp.getCall "a" 0,
             BackoffOp.getCall "a" 0]).defaultDuration) := by
  refine ⟨⟨?_, ?_, ?_⟩, ?_, ?_⟩ <;> decide

/-- **C8 (amended).** Provided `0 ≤ defaultDuration ≤ maxDuration`: after any
sequence of `getBackoff` and `gc` calls starting from a freshly constructed
manager, every entry in the per-pod map stores a duration between the default
and the maximum; and across two `getBackoff` calls for the same identity the
returned duration never decreases, provided the identity's entry survives
every intervening call (i.e. is not purged by a gc in between — without that
proviso, and for negative defaults, the original claim fails, see the
counterexample). -/
theorem backoff_range_and_monotone (D M : Int) (h0 : 0 ≤ D) (hDM : D ≤ M)
    (ops mid : List BackoffOp) (podID : String) (t1 t2 : Int)
    (hsurv : survives
      ((getBackoff (runOps (initPodBackoff D M) ops) podID t1).2) mid podID) :
    EntriesInRange (runOps (initPodBackoff D M) ops) ∧
    (getBackoff (runOps (initPodBackoff D M) ops) podID t1).1 ≤
      (getBackoff
        (runOps ((getBackoff (runOps (initPodBackoff D M) ops) podID t1).2)
          mid) podID t2).1 := by
  have hDfield : (runOps (initPodBackoff D M) ops).defaultDuration = D := by
    rw [runOps_defaultDuration]
    rfl
  have hMfield : (runOps (initPodBackoff D M) ops).maxDuration = M := by
    rw [runOps_maxDuration]
    rfl
  have hInvS : EntriesInRange (runOps (initPodBackoff D M) ops) :=
    entriesInRange_runOps ops (initPodBackoff D M) h0 hDM
      (fun kv hkv => absurd hkv (List.not_mem_nil _))
  have hndS : KeysNodup (runOps (initPodBackoff D M) ops) :=
    keysNodup_runOps ops (initPodBackoff D M) (by simp [KeysNodup, initPodBackoff])
  refine ⟨hInvS, ?_⟩
  have hb0 : 0 ≤ bcur (runOps (initPodBackoff D M) ops) podID := by
    unfold bcur
    cases hl : lookupEntry (runOps (initPodBackoff D M) ops).perPodBackoff
        podID with
    | some e =>
      show 0 ≤ e.backoff
      have h2 := (hInvS _ (mem_of_lookupEntry _ _ _ hl)).1
      rw [hDfield] at h2
      exact le_trans h0 h2
    | none =>
      show 0 ≤ (runOps (initPodBackoff D M) ops).defaultDuration
      rw [hDfield]
      exact h0
  have hbM : bcur (runOps (initPodBackoff D M) ops) podID ≤ M := by
    unfold bcur
    cases hl : lookupEntry (runOps (initPodBackoff D M) ops).perPodBackoff
        podID with
    | some e =>
      show e.backoff ≤ M
      have h2 := (hInvS _ (mem_of_lookupEntry _ _ _ hl)).2
      rw [hMfield] at h2
      exact h2
    | none =>
      show (runOps (initPodBackoff D M) ops).defaultDuration ≤ M
      rw [hDfield]
      exact hDM
  have hlook1 := getBackoff_lookup_self (runOps (initPodBackoff D M) ops)
    podID t1
  obtain ⟨e2, he2, hle⟩ := backoff_mono_runOps mid
    ((getBackoff (runOps (initPodBackoff D M) ops) podID t1).2) podID
    { backoff := capDouble (runOps (initPodBackoff D M) ops).maxDuration
        (bcur (runOps (initPodBackoff D M) ops) podID)
      lastUpdate := t1 }
    (keysNodup_getBackoff _ _ _ hndS)
    (entriesInRange_getBackoff _ podID t1 (by rw [hDfield]; exact h0)
      (by rw [hDfield, hMfield]; exact hDM) hInvS)
    (by rw [getBackoff_defaultDuration, hDfield]; exact h0)
    (by rw [getBackoff_defaultDuration, getBackoff_maxDuration, hDfield,
        hMfield]; exact hDM)
    hlook1 hsurv
  rw [getBackoff_fst, getBackoff_fst]
  have hbc2 : bcur (runOps
      ((getBackoff (runOps (initPodBackoff D M) ops) podID t1).2) mid) podID =
      e2.backoff := by
    unfold bcur
    rw [he2]
  rw [hbc2]
  have hstep : bcur (runOps (initPodBackoff D M) ops) podID ≤
      capDouble (runOps (initPodBackoff D M) ops).maxDuration
        (bcur (runOps (initPodBackoff D M) ops) podID) := by
    apply le_capDouble _ _ hb0
    rw [hMfield]
    exact hbM
  exact le_trans hstep hle

/-- Witness for the amended C8 at the factory configuration: a first call
(returning 1s) followed immediately by a second (returning 2s). -/
theorem backoff_range_and_monotone_witness :
    (0:Int) ≤ 1 * second ∧ 1 * second ≤ 60 * second ∧
    survives ((getBackoff (runOps (initPodBackoff (1 * second) (60 * second))
        []) "a" 0).2) [] "a" ∧
    (EntriesInRange (runOps (initPodBackoff (1 * second) (60 * second)) []) ∧
      (getBackoff (runOps (initPodBackoff (1 * second) (60 * second)) [])
          "a" 0).1 ≤
        (getBackoff (runOps ((getBackoff (runOps (initPodBackoff (1 * second)
            (60 * second)) []) "a" 0).2) []) "a" 0).1) :=
  ⟨by decide, by decide, trivial,
   backoff_range_and_monotone (1 * second) (60 * second) (by decide) (by decide)
     [] [] "a" 0 0 trivial⟩
